import Mathlib

/-
Verification of the libE57Format file-session layer (ImageFile).

The repository supplies the thin handle class `ImageFile` (src/src/ImageFile.cpp);
the only substantive logic present in that file is `ImageFile::checkInvariant`,
which is embedded below verbatim in structure.  The `ImageFileImpl` methods the
handle delegates to are not part of the supplied sources, so they are modelled
from the specification (each such definition carries a doc comment starting
with `Modelled from the spec:`).
-/

namespace E57

/-- The flat error taxonomy of the library (spec section 7; E57_ERROR_* codes). -/
inductive ErrorCode where
  | badAPIArgument
  | openFailed
  | lseekFailed
  | readFailed
  | writeFailed
  | closeFailed
  | badChecksum
  | badFileSignature
  | unknownFileVersion
  | badFileLength
  | xmlParserInit
  | xmlParserError
  | badXmlFormat
  | badConfiguration
  | imageFileNotOpen
  | fileIsReadOnly
  | duplicateNamespacePrefix
  | duplicateNamespaceUri
  | badPathName
  | undefinedNamespacePrefix
  | alreadyHasParent
  | pathAlreadyExists
  | valueOutOfBounds
  | invarianceViolation
  | internalError
deriving DecidableEq, Repr

instance {ε α : Type} [DecidableEq ε] [DecidableEq α] : DecidableEq (Except ε α)
  | .ok a, .ok b =>
      if h : a = b then isTrue (by rw [h]) else isFalse (by intro hh; cases hh; exact h rfl)
  | .ok _, .error _ => isFalse (by intro hh; cases hh)
  | .error _, .ok _ => isFalse (by intro hh; cases hh)
  | .error e, .error f =>
      if h : e = f then isTrue (by rw [h]) else isFalse (by intro hh; cases hh; exact h rfl)

/-! ## Element-name lexing (ImageFile::elementNameParse, isElementNameExtended)

Modelled from the spec: the implementation `ImageFileImpl::elementNameParse` is
not among the supplied sources; the doc comment in src/src/ImageFile.cpp
(lines 527-530) and spec sections 4.C / 8.7 define the grammar: a legal element
name is `ID` or `ID:ID` where `ID` is `[A-Za-z_][A-Za-z0-9_.-]*`; anything else
raises BadPathName. -/

/-- First character of an identifier: `[A-Za-z_]`. -/
def isIdStartChar (c : Char) : Bool :=
  (('a' ≤ c && c ≤ 'z') || ('A' ≤ c && c ≤ 'Z') || c == '_')

/-- Subsequent characters of an identifier: `[A-Za-z0-9_.-]`. -/
def isIdChar (c : Char) : Bool :=
  isIdStartChar c || ('0' ≤ c && c ≤ '9') || c == '-' || c == '.'

/-- An identifier `ID`: one start character followed by id characters. -/
def isId : List Char → Bool
  | [] => false
  | c :: cs => isIdStartChar c && cs.all isIdChar

/-- Split a character list at its first colon: returns the part before and the
part after the first `':'`, or `none` when there is no colon. -/
def splitAtColon : List Char → Option (List Char × List Char)
  | [] => none
  | c :: cs =>
      if c == ':' then some ([], cs)
      else (splitAtColon cs).map (fun q => (c :: q.1, q.2))

/-- Modelled from the spec: `ImageFileImpl::elementNameParse` on the character
level.  A name with no colon must be a single `ID` (empty shorthand part); a
name with a colon splits at the first colon and both sides must be `ID`s.
Everything else raises BadPathName. -/
def elementNameParseChars (s : List Char) : Except ErrorCode (List Char × List Char) :=
  match splitAtColon s with
  | none => if isId s then .ok ([], s) else .error .badPathName
  | some (p, l) => if isId p && isId l then .ok (p, l) else .error .badPathName

/-- Modelled from the spec: `ImageFile::elementNameParse` — parse an element
name into shorthand (namespace) part and local part, or raise BadPathName. -/
def elementNameParse (s : String) : Except ErrorCode (String × String) :=
  match elementNameParseChars s.data with
  | .ok (p, l) => .ok (String.mk p, String.mk l)
  | .error e => .error e

/-- The language of legal element names: `ID` or `ID:ID`. -/
def legalElementName (s : List Char) : Prop :=
  isId s = true ∨ ∃ p l, s = p ++ ':' :: l ∧ isId p = true ∧ isId l = true

/-- Modelled from the spec: `ImageFile::isElementNameExtended` — true exactly
when the name parses with a nonempty namespace shorthand; never raises (doc
comment in src/src/ImageFile.cpp lines 505-513). -/
def isElementNameExtended (s : String) : Bool :=
  match elementNameParse s with
  | .ok (p, _) => !(p == "")
  | .error _ => false

/-! ## Extension (namespace) registry

Modelled from the spec: `ImageFileImpl` holds the registry; spec section 4.D
gives the operations.  Prefix/URI pairs are kept in declaration order; both
components must be nonempty, the shorthand must be a legal identifier (looking
up an ill-formed shorthand is an error, so a declared shorthand must be
well-formed), and duplicates in either component are rejected. -/

/-- The fixed default E57 namespace URI, denoted by the empty shorthand
(spec section 4.D). -/
def defaultNamespaceUri : String := "http://www.astm.org/COMMIT/E57/2010-e57-v1.0"

/-- The extension registry: declared (shorthand, uri) pairs in order. -/
structure Extensions where
  pairs : List (String × String)
deriving DecidableEq

/-- The registry of a freshly created write-mode file: no extensions. -/
def emptyExtensions : Extensions := ⟨[]⟩

/-- Modelled from the spec: `ImageFileImpl::extensionsAdd`.  Both arguments
must be nonempty and the shorthand lexically legal; a duplicate shorthand or
duplicate URI is rejected with the corresponding error code. -/
def extensionsAdd (R : Extensions) (pfx uri : String) : Except ErrorCode Extensions :=
  if pfx == "" || uri == "" then .error .badAPIArgument
  else if !(isId pfx.data) then .error .badAPIArgument
  else if R.pairs.any (fun q => q.1 == pfx) then .error .duplicateNamespacePrefix
  else if R.pairs.any (fun q => q.2 == uri) then .error .duplicateNamespaceUri
  else .ok ⟨R.pairs ++ [(pfx, uri)]⟩

/-- Number of declared extensions; the default namespace is not counted. -/
def extensionsCount (R : Extensions) : Nat := R.pairs.length

/-- The i-th declared extension shorthand. -/
def extensionsPrefixAt (R : Extensions) (i : Nat) (h : i < extensionsCount R) : String :=
  (R.pairs.get ⟨i, h⟩).1

/-- The i-th declared extension URI (order corresponds to the shorthands). -/
def extensionsUriAt (R : Extensions) (i : Nat) (h : i < extensionsCount R) : String :=
  (R.pairs.get ⟨i, h⟩).2

/-- Modelled from the spec: `ImageFileImpl::extensionsLookupPrefix`.  The empty
shorthand always resolves to the default URI; an ill-formed shorthand raises
BadApiArgument; a well-formed undeclared shorthand yields `none` (i.e. the
public call returns false) without an error. -/
def extensionsLookupPrefix (R : Extensions) (pfx : String) : Except ErrorCode (Option String) :=
  if pfx == "" then .ok (some defaultNamespaceUri)
  else if !(isId pfx.data) then .error .badAPIArgument
  else .ok ((R.pairs.find? (fun q => q.1 == pfx)).map Prod.snd)

/-- Modelled from the spec: `ImageFileImpl::extensionsLookupUri`.  An empty URI
is an illegal argument; an undeclared URI yields `none` without an error. -/
def extensionsLookupUri (R : Extensions) (uri : String) : Except ErrorCode (Option String) :=
  if uri == "" then .error .badAPIArgument
  else .ok ((R.pairs.find? (fun q => q.2 == uri)).map Prod.fst)

/-- Registries reachable through successful `extensionsAdd` calls starting from
the empty registry — write mode builds the registry this way, and read mode
re-registers the namespace declarations parsed from the XML section through
the same path. -/
inductive ReachableRegistry : Extensions → Prop
  | empty : ReachableRegistry emptyExtensions
  | add {R R' : Extensions} (pfx uri : String) :
      ReachableRegistry R → extensionsAdd R pfx uri = .ok R' → ReachableRegistry R'

/-! ## XML bridge: nodes, documents, serialization and parsing

Modelled from the spec (section 4.G and the data model of section 3): the XML
parser/emitter collaborator delivers the document as a structured element tree,
so the document is modelled structurally (element name, attributes with typed
values, child elements); text encoding of scalars belongs to the collaborator.
Unknown elements whose names live in undeclared namespaces are retained as
opaque subtrees. -/

/-- A typed XML attribute value (numeric text is handed over decoded). -/
inductive AttrVal where
  | intV (i : Int)
  | ratV (q : ℚ)
  | strV (s : String)
deriving DecidableEq

mutual
/-- A structural XML element: name, attributes, children. -/
inductive Xml where
  | elem (name : String) (attrs : List (String × AttrVal)) (children : XmlList)
deriving DecidableEq
/-- A list of XML elements (mutual with `Xml` for clean recursion). -/
inductive XmlList where
  | nil
  | cons (head : Xml) (tail : XmlList)
deriving DecidableEq
end

/-- The element name of an XML element. -/
def nameOfXml : Xml → String
  | .elem n _ _ => n

mutual
/-- The typed metadata tree: the seven node variants of the E57 data model,
plus the opaque variant holding a retained unknown-namespace subtree. -/
inductive NodeTree where
  | integerNode (value vMin vMax : Int)
  | scaledIntegerNode (rawValue vMin vMax : Int) (scale offset : ℚ)
  | floatNode (value : ℚ) (singlePrec : Bool) (vMin vMax : ℚ)
  | stringNode (text : String)
  | blobNode (byteCount payloadOffset : Nat)
  | structureNode (children : NamedList)
  | vectorNode (allowHetero : Bool) (children : NodeList)
  | compressedVectorNode (proto : NodeTree) (codecs : NodeList)
      (recordCount payloadOffset : Nat)
  | opaqueNode (content : Xml)
deriving DecidableEq
/-- Named children of a Structure node, in insertion order. -/
inductive NamedList where
  | nil
  | cons (name : String) (node : NodeTree) (rest : NamedList)
deriving DecidableEq
/-- Unnamed children of a Vector node (and codec descriptions). -/
inductive NodeList where
  | nil
  | cons (node : NodeTree) (rest : NodeList)
deriving DecidableEq
end

/-- True when the element name is extended with a shorthand that is NOT among
the declared shorthands `E` — such an element is retained opaquely.  Ill-formed
names are not in an unknown namespace (they fail parsing instead). -/
def nameInUnknownNamespace (E : List String) (n : String) : Bool :=
  match elementNameParseChars n.data with
  | .ok (p, _) => !(p.isEmpty) && !(E.contains (String.mk p))
  | .error _ => false

/-- True when the element name is legal and its shorthand (if any) is either
absent (default namespace) or declared in `E`. -/
def nameDeclaredOrDefault (E : List String) (n : String) : Bool :=
  match elementNameParseChars n.data with
  | .ok (p, _) => p.isEmpty || E.contains (String.mk p)
  | .error _ => false

/-- Well-formedness of an opaque subtree: its root element name must be in an
unknown namespace, otherwise re-parsing would interpret it as a typed node. -/
def opaqueNameOk (E : List String) : Xml → Bool
  | .elem n _ _ => nameInUnknownNamespace E n

/-- The element-name condition a node imposes on the name it is stored under:
an opaque child keeps its own element name; a typed child needs a legal name in
a declared (or the default) namespace. -/
def wfChildName (E : List String) (n : String) : NodeTree → Bool
  | .opaqueNode x => n == nameOfXml x
  | _ => nameDeclaredOrDefault E n

/-- The name condition used when a node is serialized under a fixed synthetic
name: typed nodes need that name to be usable, opaque nodes ignore it. -/
def typedNameOk (E : List String) (n : String) : NodeTree → Bool
  | .opaqueNode _ => true
  | _ => nameDeclaredOrDefault E n

mutual
/-- Modelled from the spec: emit the XML element mirroring one node (spec
section 4.G): attributes encode variant kind, values, ranges, scale/offset and
payload location; Structure/Vector children become child elements; a
CompressedVector carries its prototype followed by its codec descriptions; an
opaque subtree is emitted verbatim. -/
def serializeNode (name : String) : NodeTree → Xml
  | .integerNode v mn mx =>
      .elem name [("type", .strV "Integer"), ("value", .intV v), ("minimum", .intV mn),
        ("maximum", .intV mx)] .nil
  | .scaledIntegerNode v mn mx sc off =>
      .elem name [("type", .strV "ScaledInteger"), ("value", .intV v), ("minimum", .intV mn),
        ("maximum", .intV mx), ("scale", .ratV sc), ("offset", .ratV off)] .nil
  | .floatNode v sp mn mx =>
      .elem name [("type", .strV "Float"), ("value", .ratV v),
        ("precision", .strV (if sp then "single" else "double")),
        ("minimum", .ratV mn), ("maximum", .ratV mx)] .nil
  | .stringNode t => .elem name [("type", .strV "String"), ("value", .strV t)] .nil
  | .blobNode len off =>
      .elem name [("type", .strV "Blob"), ("length", .intV len), ("fileOffset", .intV off)] .nil
  | .structureNode ch => .elem name [("type", .strV "Structure")] (serializeNamedList ch)
  | .vectorNode hetero ch =>
      .elem name [("type", .strV "Vector"),
        ("allowHeterogeneousChildren", .intV (if hetero then 1 else 0))] (serializeNodeList ch)
  | .compressedVectorNode proto codecs rc off =>
      .elem name [("type", .strV "CompressedVector"), ("recordCount", .intV rc),
        ("fileOffset", .intV off)]
        (.cons (serializeNode "prototype" proto) (serializeNodeList codecs))
  | .opaqueNode x => x
termination_by structural t => t
/-- Serialize the named children of a Structure node. -/
def serializeNamedList : NamedList → XmlList
  | .nil => .nil
  | .cons n t rest => .cons (serializeNode n t) (serializeNamedList rest)
termination_by structural l => l
/-- Serialize unnamed children (Vector entries, codecs) under a synthetic name. -/
def serializeNodeList : NodeList → XmlList
  | .nil => .nil
  | .cons t rest => .cons (serializeNode "vectorChild" t) (serializeNodeList rest)
termination_by structural l => l
end

/-- The variant selector: the value of a leading `type` attribute. -/
def typeOf : List (String × AttrVal) → Option String
  | ("type", .strV ty) :: _ => some ty
  | _ => none

/-- Decode the five leaf variants from their exact attribute shapes; leaves
carry no child elements. -/
def decodeLeaf : List (String × AttrVal) → XmlList → Option NodeTree
  | [("type", .strV "Integer"), ("value", .intV v), ("minimum", .intV mn),
      ("maximum", .intV mx)], .nil =>
      some (.integerNode v mn mx)
  | [("type", .strV "ScaledInteger"), ("value", .intV v), ("minimum", .intV mn),
      ("maximum", .intV mx), ("scale", .ratV sc), ("offset", .ratV off)], .nil =>
      some (.scaledIntegerNode v mn mx sc off)
  | [("type", .strV "Float"), ("value", .ratV v), ("precision", .strV pr),
      ("minimum", .ratV mn), ("maximum", .ratV mx)], .nil =>
      if pr == "single" then some (.floatNode v true mn mx)
      else if pr == "double" then some (.floatNode v false mn mx)
      else none
  | [("type", .strV "String"), ("value", .strV t)], .nil =>
      some (.stringNode t)
  | [("type", .strV "Blob"), ("length", .intV len), ("fileOffset", .intV off)], .nil =>
      some (.blobNode len.toNat off.toNat)
  | _, _ => none

/-- Decode a Structure node given the already parsed children. -/
def decodeStructure (attrs : List (String × AttrVal)) (oc : Option NamedList) : Option NodeTree :=
  match attrs with
  | [("type", .strV "Structure")] => oc.map (fun l => .structureNode l)
  | _ => none

/-- Decode a Vector node given the already parsed children. -/
def decodeVector (attrs : List (String × AttrVal)) (oc : Option NodeList) : Option NodeTree :=
  match attrs with
  | [("type", .strV "Vector"), ("allowHeterogeneousChildren", .intV a)] =>
      oc.map (fun l => .vectorNode (!(a == 0)) l)
  | _ => none

/-- Decode a CompressedVector node given the already parsed prototype (first
child) and codec list (remaining children). -/
def decodeCompressedVector (attrs : List (String × AttrVal)) (op : Option NodeTree)
    (oc : Option NodeList) : Option NodeTree :=
  match attrs with
  | [("type", .strV "CompressedVector"), ("recordCount", .intV rc), ("fileOffset", .intV off)] =>
      op.bind (fun proto => oc.map (fun codecs =>
        .compressedVectorNode proto codecs rc.toNat off.toNat))
  | _ => none

mutual
/-- Modelled from the spec: parse one XML element back into a node (spec
section 4.G).  An element whose name lies in an unknown namespace is retained
as an opaque subtree; otherwise the `type` attribute selects the variant and
the attributes and children are decoded; anything malformed fails (the session
surfaces that as BadXmlFormat). -/
def parseNode (E : List String) : Xml → Option NodeTree
  | .elem n attrs XmlList.nil =>
      if nameInUnknownNamespace E n then some (.opaqueNode (.elem n attrs XmlList.nil))
      else if typeOf attrs == some "Structure" then decodeStructure attrs (some NamedList.nil)
      else if typeOf attrs == some "Vector" then decodeVector attrs (some NodeList.nil)
      else decodeLeaf attrs XmlList.nil
  | .elem n attrs (.cons px rest) =>
      if nameInUnknownNamespace E n then some (.opaqueNode (.elem n attrs (.cons px rest)))
      else if typeOf attrs == some "Structure" then
        decodeStructure attrs ((parseNode E px).bind (fun t =>
          (parseNamedList E rest).map (fun r => NamedList.cons (nameOfXml px) t r)))
      else if typeOf attrs == some "Vector" then
        decodeVector attrs ((parseNode E px).bind (fun t =>
          (parseNodeList E rest).map (fun r => NodeList.cons t r)))
      else if typeOf attrs == some "CompressedVector" then
        decodeCompressedVector attrs (parseNode E px) (parseNodeList E rest)
      else decodeLeaf attrs (.cons px rest)
termination_by structural x => x
/-- Parse Structure children: each child element contributes its element name
and its parsed node. -/
def parseNamedList (E : List String) : XmlList → Option NamedList
  | .nil => some NamedList.nil
  | .cons x rest =>
      (parseNode E x).bind (fun t =>
        (parseNamedList E rest).map (fun r => NamedList.cons (nameOfXml x) t r))
termination_by structural l => l
/-- Parse unnamed children (Vector entries, codecs). -/
def parseNodeList (E : List String) : XmlList → Option NodeList
  | .nil => some NodeList.nil
  | .cons x rest =>
      (parseNode E x).bind (fun t =>
        (parseNodeList E rest).map (fun r => NodeList.cons t r))
termination_by structural l => l
end

mutual
/-- Structural well-formedness of a tree relative to declared shorthands `E`:
names of typed children are legal and in declared-or-default namespaces, opaque
subtrees sit under their own unknown-namespace names.  Trees built through the
attach rules of a write-mode session satisfy this. -/
def wfNode (E : List String) : NodeTree → Bool
  | .opaqueNode x => opaqueNameOk E x
  | .structureNode ch => wfNamedList E ch
  | .vectorNode _ ch => wfNodeList E ch
  | .compressedVectorNode proto codecs _ _ => wfNode E proto && wfNodeList E codecs
  | _ => true
termination_by structural t => t
/-- Well-formedness of named (Structure) children. -/
def wfNamedList (E : List String) : NamedList → Bool
  | .nil => true
  | .cons n t rest => wfChildName E n t && wfNode E t && wfNamedList E rest
termination_by structural l => l
/-- Well-formedness of unnamed children. -/
def wfNodeList (E : List String) : NodeList → Bool
  | .nil => true
  | .cons t rest => wfNode E t && wfNodeList E rest
termination_by structural l => l
end

/-- The declared shorthand list of a registry. -/
def declaredShorthands (R : Extensions) : List String := R.pairs.map Prod.fst

/-- The XML section of a sealed file: the namespace declarations at the
document root (every declared extension pair) plus the serialized tree. -/
structure E57Document where
  namespaces : List (String × String)
  rootElem : Xml
deriving DecidableEq

/-- Modelled from the spec: serialize the session state into the XML section
written during close: all declared extensions become namespace declarations at
the document root and the tree is emitted below the root element. -/
def serializeDocument (R : Extensions) (t : NodeTree) : E57Document :=
  ⟨R.pairs, serializeNode "e57Root" t⟩

/-- Modelled from the spec: parse the XML section on open-for-read: the
registry is initialized from the namespace declarations and the tree is parsed
with those shorthands declared. -/
def parseDocument (d : E57Document) : Option (Extensions × NodeTree) :=
  match parseNode (d.namespaces.map Prod.fst) d.rootElem with
  | some t => some (⟨d.namespaces⟩, t)
  | none => none

/-! ## Session lifecycle (close / cancel / drop)

Modelled from the spec: `ImageFileImpl::close`, `::cancel` and the destructor
are not among the supplied sources; spec section 4.F and the documented
contracts in src/src/ImageFile.cpp (close: lines 201-235, post "ImageFile is
in closed state"; cancel: lines 237-252; destructor warning: lines 213-220)
define them. -/

/-- The session states of spec section 4.F. -/
inductive SessionState where
  | openWrite
  | openRead
  | closed
deriving DecidableEq

/-- The file at the session's target path: missing, present but not sealed
(placeholder header, partially written payloads), or sealed with an XML
section. -/
inductive DiskFile where
  | absent
  | placeholder
  | sealed (doc : E57Document)
deriving DecidableEq

/-- A session: lifecycle state, live writer/reader counts, the metadata tree,
the extension registry, and the file at the target path. -/
structure Session where
  state : SessionState
  writers : Nat
  readers : Nat
  tree : NodeTree
  exts : Extensions
  disk : DiskFile
deriving DecidableEq

/-- A complete, self-consistent E57 file on disk: sealed, and its XML section
parses back successfully. -/
def selfConsistentDisk : DiskFile → Prop
  | .sealed doc => ∃ r, parseDocument doc = some r
  | _ => False

/-- Modelled from the spec: `ImageFileImpl::close`.  From Closed it does
nothing; from OpenRead it closes the session without touching the file and
never fails; from OpenWrite it requires zero live writers and readers (the
error kind for a violation is not pinned down by the spec and is modelled as
Internal), then serializes the tree to the XML section, patches the header and
flushes — the success of that I/O pipeline is the `ioOk` parameter.  Any
failure leaves the session in Closed (and the file present but undefined). -/
def closeSession (s : Session) (ioOk : Bool) : Session × Option ErrorCode :=
  match s.state with
  | .closed => (s, none)
  | .openRead => ({ s with state := .closed }, none)
  | .openWrite =>
      if s.writers ≠ 0 || s.readers ≠ 0 then
        ({ s with state := .closed }, some .internalError)
      else if ioOk then
        ({ s with state := .closed, disk := .sealed (serializeDocument s.exts s.tree) }, none)
      else
        ({ s with state := .closed }, some .writeFailed)

/-- Modelled from the spec: `ImageFileImpl::cancel`.  Never raises: from
OpenWrite it drops unflushed state, closes and unlinks the file; from OpenRead
it is close without the error channel; from Closed it is a no-op. -/
def cancelSession (s : Session) : Session :=
  match s.state with
  | .closed => s
  | .openRead => { s with state := .closed }
  | .openWrite => { s with state := .closed, disk := .absent }

/-- Modelled from the spec: the destructor (drop) of a session.  In OpenWrite
without a prior close it deletes the partially written file and closes,
swallowing errors; otherwise it just closes the underlying handles. -/
def dropSession (s : Session) : Session :=
  match s.state with
  | .closed => s
  | .openRead => { s with state := .closed }
  | .openWrite => { s with state := .closed, disk := .absent }

/-- Modelled from the spec: construct(path, "r") — open an on-disk file for
reading: validate and parse the XML section, build the tree and registry. -/
def openReadSession (d : DiskFile) : Except ErrorCode Session :=
  match d with
  | .sealed doc =>
      match parseDocument doc with
      | some (r, t) => .ok ⟨.openRead, 0, 0, t, r, d⟩
      | none => .error .badXmlFormat
  | _ => .error .openFailed

/-! ## Session view and the embedded checkInvariant

`ImageFile::checkInvariant` (src/src/ImageFile.cpp lines 575-680) is real code
of the supplied source and is embedded here over the externally visible state
it consults. -/

/-- The externally visible session state consulted by
`ImageFile::checkInvariant`: isOpen(), root().isRoot(), fileName(),
writerCount(), readerCount(), isWritable() and the extension registry.  The
counts are integers because the C++ accessors return int and the invariant
explicitly checks them for negativity. -/
structure SessionView where
  isOpen : Bool
  rootIsRoot : Bool
  fileName : String
  writerCount : Int
  readerCount : Int
  isWritable : Bool
  extensions : Extensions
deriving DecidableEq

/-- The pairwise-distinctness check of the nested loops in checkInvariant
(lines 633-648): false exactly when two entries are equal. -/
def distinctStrings : List String → Bool
  | [] => true
  | x :: xs => !(xs.contains x) && distinctStrings xs

/-- The lookup-verification loop of checkInvariant (lines 650-673): each
declared pair must be found by both lookup directions with matching values;
lookup errors propagate, mismatches are invariance violations. -/
def checkLookups (R : Extensions) : List (String × String) → Except ErrorCode Unit
  | [] => .ok ()
  | (p, u) :: rest =>
      match extensionsLookupPrefix R p with
      | .error e => .error e
      | .ok none => .error .invarianceViolation
      | .ok (some u2) =>
          if u2 == u then
            match extensionsLookupUri R u with
            | .error e => .error e
            | .ok none => .error .invarianceViolation
            | .ok (some p2) =>
                if p2 == p then checkLookups R rest else .error .invarianceViolation
          else .error .invarianceViolation

/-- Embedding of `ImageFile::checkInvariant` (src/src/ImageFile.cpp lines
575-680), in source order: a closed ImageFile returns immediately without
raising; then the root / fileName / count / writer-mode clauses; then
extension uniqueness and lookup verification.  The recursive clause
(root().checkInvariant) concerns node-tree code not among the supplied sources
and is modelled as succeeding. -/
def checkInvariant (s : SessionView) (doRecurse : Bool) : Except ErrorCode Unit :=
  if !s.isOpen then .ok ()
  else if !s.rootIsRoot then .error .invarianceViolation
  else if s.fileName == "" then .error .invarianceViolation
  else if s.readerCount < 0 then .error .invarianceViolation
  else if s.writerCount < 0 then .error .invarianceViolation
  else if 1 < s.writerCount then .error .invarianceViolation
  else if s.writerCount > 0 && !s.isWritable then .error .invarianceViolation
  else if s.writerCount > 0 && s.readerCount > 0 then .error .invarianceViolation
  else if !(distinctStrings (s.extensions.pairs.map Prod.fst)) then .error .invarianceViolation
  else if !(distinctStrings (s.extensions.pairs.map Prod.snd)) then .error .invarianceViolation
  else
    match checkLookups s.extensions s.extensions.pairs with
    | .error e => .error e
    | .ok () => .ok ()

/-! ## The public operations guarded by the open state

Modelled from the spec: every public operation other than close, cancel and
the lifecycle/identity helpers requires the session to be open and raises
ImageFileNotOpen otherwise (spec section 4.F; the @pre / @throw contracts in
src/src/ImageFile.cpp). -/

/-- Modelled from the spec: `ImageFile::root` — requires the open state. -/
def rootOp (s : SessionView) : Except ErrorCode Unit :=
  if !s.isOpen then .error .imageFileNotOpen else .ok ()

/-- Modelled from the spec: `ImageFile::writerCount` — requires the open state. -/
def writerCountOp (s : SessionView) : Except ErrorCode Int :=
  if !s.isOpen then .error .imageFileNotOpen else .ok s.writerCount

/-- Modelled from the spec: `ImageFile::readerCount` — requires the open state. -/
def readerCountOp (s : SessionView) : Except ErrorCode Int :=
  if !s.isOpen then .error .imageFileNotOpen else .ok s.readerCount

/-- Modelled from the spec: `ImageFile::extensionsAdd` — requires the open
state and write mode, then registers through the registry. -/
def extensionsAddOp (s : SessionView) (pfx uri : String) : Except ErrorCode SessionView :=
  if !s.isOpen then .error .imageFileNotOpen
  else if !s.isWritable then .error .fileIsReadOnly
  else
    match extensionsAdd s.extensions pfx uri with
    | .error e => .error e
    | .ok R => .ok { s with extensions := R }

/-- Modelled from the spec: `ImageFile::extensionsLookupPrefix` — requires the
open state. -/
def extensionsLookupPrefixOp (s : SessionView) (pfx : String) : Except ErrorCode (Option String) :=
  if !s.isOpen then .error .imageFileNotOpen else extensionsLookupPrefix s.extensions pfx

/-- Modelled from the spec: `ImageFile::extensionsLookupUri` — requires the
open state. -/
def extensionsLookupUriOp (s : SessionView) (uri : String) : Except ErrorCode (Option String) :=
  if !s.isOpen then .error .imageFileNotOpen else extensionsLookupUri s.extensions uri

/-- Modelled from the spec: `ImageFile::extensionsCount` — requires the open
state. -/
def extensionsCountOp (s : SessionView) : Except ErrorCode Nat :=
  if !s.isOpen then .error .imageFileNotOpen else .ok (extensionsCount s.extensions)

/-- Modelled from the spec: `ImageFile::extensionsPrefix` — requires the open
state and a valid index. -/
def extensionsPrefixOp (s : SessionView) (i : Nat) : Except ErrorCode String :=
  if !s.isOpen then .error .imageFileNotOpen
  else if h : i < extensionsCount s.extensions then .ok (extensionsPrefixAt s.extensions i h)
  else .error .badAPIArgument

/-- Modelled from the spec: `ImageFile::extensionsUri` — requires the open
state and a valid index. -/
def extensionsUriOp (s : SessionView) (i : Nat) : Except ErrorCode String :=
  if !s.isOpen then .error .imageFileNotOpen
  else if h : i < extensionsCount s.extensions then .ok (extensionsUriAt s.extensions i h)
  else .error .badAPIArgument

/-! ## Reachable session states

Modelled from the spec (sections 4.E, 4.F): writer creation requires write
mode, no live writer and no live reader; reader creation requires no live
writer; closing a writer/reader decrements the respective count; extensions
are added through `extensionsAddOp`; the session may close. -/

/-- One step of session activity. -/
inductive SessionStep : SessionView → SessionView → Prop
  | writerNew {s : SessionView} : s.isOpen = true → s.isWritable = true →
      s.writerCount = 0 → s.readerCount = 0 →
      SessionStep s { s with writerCount := 1 }
  | writerClose {s : SessionView} : s.writerCount = 1 →
      SessionStep s { s with writerCount := 0 }
  | readerNew {s : SessionView} : s.isOpen = true → s.writerCount = 0 →
      SessionStep s { s with readerCount := s.readerCount + 1 }
  | readerClose {s : SessionView} : 0 < s.readerCount →
      SessionStep s { s with readerCount := s.readerCount - 1 }
  | extAdd {s s' : SessionView} (pfx uri : String) :
      extensionsAddOp s pfx uri = .ok s' → SessionStep s s'
  | sessionClose {s : SessionView} : SessionStep s { s with isOpen := false }

/-- The reachable session states: a fresh write session (empty registry, no
live writers or readers), a fresh read session (registry rebuilt from a parsed
file), and anything reachable from those by steps. -/
inductive ReachableSession : SessionView → Prop
  | initWrite (name : String) : name ≠ "" →
      ReachableSession ⟨true, true, name, 0, 0, true, emptyExtensions⟩
  | initRead (name : String) (R : Extensions) : name ≠ "" → ReachableRegistry R →
      ReachableSession ⟨true, true, name, 0, 0, false, R⟩
  | step {s s' : SessionView} : ReachableSession s → SessionStep s s' →
      ReachableSession s'

/-! ### Lexing lemmas -/

theorem colon_not_idStart : isIdStartChar ':' = false := by decide

theorem colon_not_idChar : isIdChar ':' = false := by decide

theorem isId_colon_not_mem {p : List Char} (h : isId p = true) : ':' ∉ p := by
  intro hmem
  cases p with
  | nil => cases hmem
  | cons c cs =>
      simp only [isId, Bool.and_eq_true, List.all_eq_true] at h
      rcases List.mem_cons.mp hmem with hc | hc
      · rw [← hc] at h
        exact absurd h.1 (by decide)
      · have := h.2 ':' hc
        exact absurd this (by decide)

theorem splitAtColon_cons_ne {c : Char} {cs : List Char} (hc : ¬(c = ':')) :
    splitAtColon (c :: cs) = (splitAtColon cs).map (fun q => (c :: q.1, q.2)) := by
  simp [splitAtColon, hc]

theorem splitAtColon_eq_none {s : List Char} :
    splitAtColon s = none ↔ ':' ∉ s := by
  induction s with
  | nil => simp [splitAtColon]
  | cons c cs ih =>
      by_cases hc : c = ':'
      · subst hc
        simp [splitAtColon]
      · rw [splitAtColon_cons_ne hc, Option.map_eq_none', ih]
        constructor
        · intro h hmem
          rcases List.mem_cons.mp hmem with h1 | h1
          · exact hc h1.symm
          · exact h h1
        · intro h h1
          exact h (List.mem_cons_of_mem c h1)

theorem splitAtColon_sound {s p l : List Char} (h : splitAtColon s = some (p, l)) :
    s = p ++ ':' :: l ∧ ':' ∉ p := by
  induction s generalizing p l with
  | nil => simp [splitAtColon] at h
  | cons c cs ih =>
      by_cases hc : c = ':'
      · subst hc
        have h1 : splitAtColon (':' :: cs) = some ([], cs) := by simp [splitAtColon]
        rw [h1] at h
        cases h
        exact ⟨rfl, by simp⟩
      · rw [splitAtColon_cons_ne hc, Option.map_eq_some'] at h
        obtain ⟨⟨p', l'⟩, hsplit, heq⟩ := h
        simp only at heq
        cases heq
        obtain ⟨hs, hnot⟩ := ih hsplit
        constructor
        · rw [hs]; rfl
        · intro hmem
          rcases List.mem_cons.mp hmem with h1 | h1
          · exact hc h1.symm
          · exact hnot h1

theorem splitAtColon_complete {p l : List Char} (h : ':' ∉ p) :
    splitAtColon (p ++ ':' :: l) = some (p, l) := by
  induction p with
  | nil => simp [splitAtColon]
  | cons c cs ih =>
      have hc : ¬(c = ':') := fun hh => h (hh ▸ List.mem_cons_self c cs)
      have hcs : ':' ∉ cs := fun hh => h (List.mem_cons_of_mem c hh)
      show splitAtColon (c :: (cs ++ ':' :: l)) = some (c :: cs, l)
      rw [splitAtColon_cons_ne hc, ih hcs]
      rfl

theorem parse_of_no_colon {s : List Char} (h : splitAtColon s = none) :
    elementNameParseChars s =
      if isId s then .ok ([], s) else .error .badPathName := by
  simp [elementNameParseChars, h]

theorem parse_of_colon {s p0 l0 : List Char} (h : splitAtColon s = some (p0, l0)) :
    elementNameParseChars s =
      if isId p0 && isId l0 then .ok (p0, l0) else .error .badPathName := by
  simp [elementNameParseChars, h]

theorem legal_of_no_colon {s : List Char} (h : ':' ∉ s) :
    legalElementName s ↔ isId s = true := by
  constructor
  · rintro (hh | ⟨p, l, hs, _, _⟩)
    · exact hh
    · exact absurd (hs ▸ List.mem_append_right p (List.mem_cons_self ':' l)) h
  · exact Or.inl

theorem legal_of_colon {s p0 l0 : List Char} (h : splitAtColon s = some (p0, l0)) :
    legalElementName s ↔ (isId p0 = true ∧ isId l0 = true) := by
  obtain ⟨hs, _⟩ := splitAtColon_sound h
  constructor
  · rintro (hh | ⟨p, l, hseq, hip, hil⟩)
    · exact absurd (hs ▸ List.mem_append_right p0 (List.mem_cons_self ':' l0))
        (isId_colon_not_mem hh)
    · have h2 : splitAtColon s = some (p, l) := by
        rw [hseq]; exact splitAtColon_complete (isId_colon_not_mem hip)
      rw [h] at h2
      cases h2
      exact ⟨hip, hil⟩
  · rintro ⟨hip, hil⟩
    exact Or.inr ⟨p0, l0, hs, hip, hil⟩

/-- The characterization of `elementNameParseChars` on the character level:
success is exactly membership in the `ID (":" ID)?` language, failure is always
BadPathName, and a successful parse recombines to the input. -/
theorem elementNameParseChars_spec (s : List Char) :
    ((∃ r, elementNameParseChars s = .ok r) ↔ legalElementName s) ∧
    (∀ p l, elementNameParseChars s = .ok (p, l) →
      (if p = [] then l else p ++ ':' :: l) = s) ∧
    (¬ legalElementName s → elementNameParseChars s = .error .badPathName) := by
  rcases hsplit : splitAtColon s with _ | ⟨p0, l0⟩
  · -- no colon anywhere in s
    have hnc : ':' ∉ s := splitAtColon_eq_none.mp hsplit
    rw [parse_of_no_colon hsplit]
    refine ⟨?_, ?_, ?_⟩
    · rw [legal_of_no_colon hnc]
      by_cases hid : isId s = true
      · simp [hid]
      · simp [hid]
    · intro p l h
      by_cases hid : isId s = true
      · rw [if_pos hid] at h
        cases h
        simp
      · rw [if_neg hid] at h
        cases h
    · intro hnl
      have hid : ¬ isId s = true := fun hh => hnl ((legal_of_no_colon hnc).mpr hh)
      rw [if_neg hid]
  · -- s splits as p0 ++ ':' :: l0 at its first colon
    obtain ⟨hs, _⟩ := splitAtColon_sound hsplit
    rw [parse_of_colon hsplit]
    refine ⟨?_, ?_, ?_⟩
    · rw [legal_of_colon hsplit]
      by_cases hid : (isId p0 && isId l0) = true
      · rw [if_pos hid]
        rw [Bool.and_eq_true] at hid
        simp [hid.1, hid.2]
      · rw [if_neg hid]
        rw [Bool.and_eq_true] at hid
        constructor
        · rintro ⟨r, hr⟩
          cases hr
        · intro hh
          exact absurd hh hid
    · intro p l h
      by_cases hid : (isId p0 && isId l0) = true
      · rw [if_pos hid] at h
        cases h
        have hpne : p0 ≠ [] := by
          intro hnil
          rw [hnil] at hid
          simp [isId] at hid
        rw [if_neg hpne, hs]
      · rw [if_neg hid] at h
        cases h
    · intro hnl
      have hid : ¬ (isId p0 = true ∧ isId l0 = true) :=
        fun hh => hnl ((legal_of_colon hsplit).mpr hh)
      have hb : (isId p0 && isId l0) ≠ true := by
        intro hh
        rw [Bool.and_eq_true] at hh
        exact hid hh
      rw [if_neg hb]

theorem string_mk_append (a b : List Char) :
    String.mk a ++ String.mk b = String.mk (a ++ b) := rfl

theorem string_mk_eq_empty {a : List Char} : (String.mk a = "") ↔ a = [] := by
  constructor
  · intro h
    exact congrArg String.data h
  · intro h
    rw [h]

theorem string_mk_data (s : String) : String.mk s.data = s := by
  cases s
  rfl

/-! ### Claim C6: elementNameParse is exact on the element-name language -/

/-- Claim C6: for every input string s, elementNameParse succeeds exactly when
s matches ID or ID:ID with ID drawn from [A-Za-z_][A-Za-z0-9_.-]*, raises
BadPathName on exactly the complement of that language, and on success the
returned parts, recombined with a colon when the namespace shorthand is
nonempty, equal the input. -/
theorem claimC6 (s : String) :
    ((∃ r, elementNameParse s = .ok r) ↔ legalElementName s.data) ∧
    (¬ legalElementName s.data → elementNameParse s = .error .badPathName) ∧
    (∀ pfx lp, elementNameParse s = .ok (pfx, lp) →
      (if pfx = "" then lp else pfx ++ ":" ++ lp) = s) := by
  obtain ⟨hiff, hrec, herr⟩ := elementNameParseChars_spec s.data
  rcases hp : elementNameParseChars s.data with e | ⟨p, l⟩
  · -- the character-level parser fails
    have hparse : elementNameParse s = .error e := by
      simp [elementNameParse, hp]
    have hnl : ¬ legalElementName s.data := by
      intro hleg
      obtain ⟨r, hr⟩ := hiff.mpr hleg
      rw [hp] at hr
      cases hr
    have he : e = .badPathName := by
      have := herr hnl
      rw [hp] at this
      cases this
      rfl
    refine ⟨?_, ?_, ?_⟩
    · constructor
      · rintro ⟨r, hr⟩
        rw [hparse] at hr
        cases hr
      · intro hleg
        exact absurd hleg hnl
    · intro _
      rw [hparse, he]
    · intro pfx lp h
      rw [hparse] at h
      cases h
  · -- the character-level parser succeeds with parts p and l
    have hparse : elementNameParse s = .ok (String.mk p, String.mk l) := by
      simp [elementNameParse, hp]
    have hleg : legalElementName s.data := hiff.mp ⟨(p, l), hp⟩
    refine ⟨?_, ?_, ?_⟩
    · constructor
      · intro _
        exact hleg
      · intro _
        exact ⟨(String.mk p, String.mk l), hparse⟩
    · intro hnl
      exact absurd hleg hnl
    · intro pfx lp h
      rw [hparse] at h
      cases h
      have hchars := hrec p l hp
      by_cases hp0 : p = []
      · rw [hp0] at hchars
        rw [if_pos (string_mk_eq_empty.mpr hp0)]
        rw [if_pos rfl] at hchars
        rw [hchars]
      · rw [if_neg hp0] at hchars
        rw [if_neg (fun hh => hp0 (string_mk_eq_empty.mp hh))]
        have : String.mk p ++ ":" ++ String.mk l = String.mk (p ++ ':' :: l) := by
          rw [show (":" : String) = String.mk [':'] from rfl]
          rw [string_mk_append, string_mk_append]
          simp
        rw [this, hchars]

/-- Witness for C6: the recombination clause discharged at the concrete input
"a:b", and the failure clause observed at the concrete illegal input "a::b". -/
theorem claimC6_witness :
    ((if ("a" : String) = "" then "b" else "a" ++ ":" ++ "b") = "a:b") ∧
    elementNameParse "a::b" = .error .badPathName :=
  ⟨(claimC6 "a:b").2.2 "a" "b" (by decide),
   (claimC6 "a::b").2.1 (fun hleg => by
      obtain ⟨r, hr⟩ := (claimC6 "a::b").1.mpr hleg
      rw [show elementNameParse "a::b" = .error .badPathName from by decide] at hr
      cases hr)⟩

/-! ### Claim C10: isElementNameExtended never raises and mirrors the parser -/

/-- Claim C10: for every string s, isElementNameExtended s never raises (it is
a total Boolean) and returns true exactly when elementNameParse would succeed
with a nonempty namespace shorthand; on names the parser rejects it returns
false instead of propagating BadPathName. -/
theorem claimC10 (s : String) :
    (isElementNameExtended s = true ↔ ∃ p l, elementNameParse s = .ok (p, l) ∧ p ≠ "") ∧
    (∀ e, elementNameParse s = .error e → isElementNameExtended s = false) := by
  rcases h : elementNameParse s with e | ⟨p, l⟩
  · refine ⟨?_, ?_⟩
    · simp only [isElementNameExtended, h]
      constructor
      · intro hh
        cases hh
      · rintro ⟨p, l, hpl, _⟩
        cases hpl
    · intro _ _
      simp only [isElementNameExtended, h]
  · refine ⟨?_, ?_⟩
    · simp only [isElementNameExtended, h]
      constructor
      · intro hh
        refine ⟨p, l, rfl, ?_⟩
        simpa using hh
      · rintro ⟨p2, l2, hpl, hne⟩
        cases hpl
        simpa using hne
    · intro e he
      cases he

/-- Witness for C10: evaluated at the extended name "a:b" and at the illegal
name "1bad" (rejected by the parser, mapped to false). -/
theorem claimC10_witness :
    isElementNameExtended "a:b" = true ∧ isElementNameExtended "1bad" = false :=
  ⟨(claimC10 "a:b").1.mpr ⟨"a", "b", by decide, by decide⟩,
   (claimC10 "1bad").2 .badPathName (by decide)⟩

/-! ### Registry lemmas and claims C5, C9 -/

theorem extensionsAdd_ok {R : Extensions} {pfx uri : String} {R' : Extensions}
    (h : extensionsAdd R pfx uri = .ok R') :
    pfx ≠ "" ∧ uri ≠ "" ∧ isId pfx.data = true ∧
    (∀ q ∈ R.pairs, q.1 ≠ pfx) ∧ (∀ q ∈ R.pairs, q.2 ≠ uri) ∧
    R' = ⟨R.pairs ++ [(pfx, uri)]⟩ := by
  simp only [extensionsAdd] at h
  by_cases h1 : (pfx == "" || uri == "") = true
  · rw [if_pos h1] at h; cases h
  · rw [if_neg h1] at h
    by_cases h2 : (!(isId pfx.data)) = true
    · rw [if_pos h2] at h; cases h
    · rw [if_neg h2] at h
      by_cases h3 : (R.pairs.any fun q => q.1 == pfx) = true
      · rw [if_pos h3] at h; cases h
      · rw [if_neg h3] at h
        by_cases h4 : (R.pairs.any fun q => q.2 == uri) = true
        · rw [if_pos h4] at h; cases h
        · rw [if_neg h4] at h
          cases h
          simp only [Bool.or_eq_true, beq_iff_eq, not_or] at h1
          have h2a : isId pfx.data = true := by
            rcases Bool.eq_false_or_eq_true (isId pfx.data) with ht | hf
            · exact ht
            · exact absurd (by rw [hf]; rfl) h2
          have h3a : ∀ q ∈ R.pairs, q.1 ≠ pfx := by
            intro q hq heq
            exact h3 (List.any_eq_true.mpr ⟨q, hq, by simp [heq]⟩)
          have h4a : ∀ q ∈ R.pairs, q.2 ≠ uri := by
            intro q hq heq
            exact h4 (List.any_eq_true.mpr ⟨q, hq, by simp [heq]⟩)
          exact ⟨h1.1, h1.2, h2a, h3a, h4a, rfl⟩

theorem reachable_registry_inv {R : Extensions} (h : ReachableRegistry R) :
    (R.pairs.map Prod.fst).Nodup ∧ (R.pairs.map Prod.snd).Nodup ∧
    ∀ q ∈ R.pairs, q.1 ≠ "" ∧ isId q.1.data = true ∧ q.2 ≠ "" := by
  induction h with
  | empty => simp [emptyExtensions]
  | add pfx uri hR hadd ih =>
      obtain ⟨hp, hu, hid, hnp, hnu, hEq⟩ := extensionsAdd_ok hadd
      obtain ⟨ih1, ih2, ih3⟩ := ih
      subst hEq
      refine ⟨?_, ?_, ?_⟩
      · rw [List.map_append, List.nodup_append]
        refine ⟨ih1, by simp, ?_⟩
        intro a ha hb
        rw [List.map_cons, List.map_nil, List.mem_singleton] at hb
        obtain ⟨q, hq, hqa⟩ := List.mem_map.mp ha
        exact hnp q hq (hqa.trans hb)
      · rw [List.map_append, List.nodup_append]
        refine ⟨ih2, by simp, ?_⟩
        intro a ha hb
        rw [List.map_cons, List.map_nil, List.mem_singleton] at hb
        obtain ⟨q, hq, hqa⟩ := List.mem_map.mp ha
        exact hnu q hq (hqa.trans hb)
      · intro q hq
        rcases List.mem_append.mp hq with hq1 | hq2
        · exact ih3 q hq1
        · rw [List.mem_singleton] at hq2
          subst hq2
          exact ⟨hp, hid, hu⟩

theorem find?_cons_pairs (p : String × String → Bool) (a : String × String)
    (l : List (String × String)) :
    (a :: l).find? p = if p a then some a else l.find? p := by
  cases hpa : p a <;> simp [List.find?, hpa]

theorem find?_key_get {f : String × String → String} {l : List (String × String)}
    (hnd : (l.map f).Nodup) (i : Nat) (hi : i < l.length) :
    l.find? (fun q => f q == f (l.get ⟨i, hi⟩)) = some (l.get ⟨i, hi⟩) := by
  induction l generalizing i with
  | nil => simp at hi
  | cons a l ih =>
      rw [List.map_cons, List.nodup_cons] at hnd
      cases i with
      | zero =>
          rw [find?_cons_pairs]
          rw [if_pos (by simp)]
          rfl
      | succ j =>
          have hj : j < l.length := Nat.lt_of_succ_lt_succ hi
          have hget : (a :: l).get ⟨j + 1, hi⟩ = l.get ⟨j, hj⟩ := rfl
          rw [hget]
          have hne : ¬ (f a == f (l.get ⟨j, hj⟩)) = true := by
            simp only [beq_iff_eq]
            intro heq
            exact hnd.1 (heq ▸ List.mem_map_of_mem f (l.get_mem j hj))
          rw [find?_cons_pairs, if_neg hne]
          exact ih hnd.2 j hj

/-- Claim C5: for every reachable registry the declared shorthands and URIs
are each duplicate-free, and for every valid index both lookup directions
return the corresponding entry of the other column. -/
theorem claimC5 (R : Extensions) (h : ReachableRegistry R) :
    (R.pairs.map Prod.fst).Nodup ∧ (R.pairs.map Prod.snd).Nodup ∧
    (∀ i (hi : i < extensionsCount R),
      extensionsLookupPrefix R (extensionsPrefixAt R i hi)
        = .ok (some (extensionsUriAt R i hi)) ∧
      extensionsLookupUri R (extensionsUriAt R i hi)
        = .ok (some (extensionsPrefixAt R i hi))) := by
  obtain ⟨h1, h2, h3⟩ := reachable_registry_inv h
  refine ⟨h1, h2, ?_⟩
  intro i hi
  have hmem : R.pairs.get ⟨i, hi⟩ ∈ R.pairs := R.pairs.get_mem i hi
  obtain ⟨hne, hid, hune⟩ := h3 _ hmem
  constructor
  · have c1 : ¬ ((R.pairs.get ⟨i, hi⟩).1 == "") = true :=
      fun hh => hne (beq_iff_eq.mp hh)
    have c2 : ¬ (!(isId (R.pairs.get ⟨i, hi⟩).1.data)) = true := by
      rw [hid]
      decide
    simp only [extensionsLookupPrefix, extensionsPrefixAt, extensionsUriAt]
    rw [if_neg c1, if_neg c2]
    rw [find?_key_get (f := Prod.fst) h1 i hi]
    rfl
  · have c1 : ¬ ((R.pairs.get ⟨i, hi⟩).2 == "") = true :=
      fun hh => hune (beq_iff_eq.mp hh)
    simp only [extensionsLookupUri, extensionsPrefixAt, extensionsUriAt]
    rw [if_neg c1]
    rw [find?_key_get (f := Prod.snd) h2 i hi]
    rfl

/-- Witness for C5: a registry holding the single declaration
("demo", "http://example.com/D"), looked up at index 0. -/
theorem claimC5_witness :
    extensionsLookupPrefix ⟨[("demo", "http://example.com/D")]⟩ "demo"
      = .ok (some "http://example.com/D") := by
  have hreach : ReachableRegistry ⟨[("demo", "http://example.com/D")]⟩ :=
    .add "demo" "http://example.com/D" .empty (by decide)
  exact ((claimC5 _ hreach).2.2 0 (by decide)).1

/-- Claim C9: on every reachable registry the empty shorthand always resolves
to the fixed default E57 namespace URI, the empty shorthand is never among the
counted extensions, and looking up a well-formed undeclared shorthand returns
false (none) without raising. -/
theorem claimC9 (R : Extensions) (p : String) (hR : ReachableRegistry R) :
    extensionsLookupPrefix R "" = .ok (some defaultNamespaceUri) ∧
    (∀ i (hi : i < extensionsCount R), extensionsPrefixAt R i hi ≠ "") ∧
    (isId p.data = true → (∀ q ∈ R.pairs, q.1 ≠ p) →
      extensionsLookupPrefix R p = .ok none) := by
  obtain ⟨h1, h2, h3⟩ := reachable_registry_inv hR
  refine ⟨rfl, ?_, ?_⟩
  · intro i hi
    exact (h3 _ (R.pairs.get_mem i hi)).1
  · intro hid hnot
    have hpne : p ≠ "" := by
      intro hh
      rw [hh] at hid
      exact absurd hid (by decide)
    have c1 : ¬ (p == "") = true := fun hh => hpne (beq_iff_eq.mp hh)
    have c2 : ¬ (!(isId p.data)) = true := by
      rw [hid]
      decide
    have hfind : R.pairs.find? (fun q => q.1 == p) = none := by
      rw [List.find?_eq_none]
      intro q hq
      simp [hnot q hq]
    simp only [extensionsLookupPrefix]
    rw [if_neg c1, if_neg c2, hfind]
    rfl

/-- Witness for C9: the one-entry registry, a well-formed undeclared shorthand
"xyz" (returns none without error) and the empty shorthand (default URI). -/
theorem claimC9_witness :
    extensionsLookupPrefix ⟨[("demo", "http://example.com/D")]⟩ "xyz" = .ok none ∧
    extensionsLookupPrefix ⟨[("demo", "http://example.com/D")]⟩ ""
      = .ok (some defaultNamespaceUri) := by
  have hreach : ReachableRegistry ⟨[("demo", "http://example.com/D")]⟩ :=
    .add "demo" "http://example.com/D" .empty (by decide)
  constructor
  · exact (claimC9 _ "xyz" hreach).2.2 (by decide) (by decide)
  · exact (claimC9 _ "" hreach).1

/-! ### XML round-trip lemmas and claim C7 -/

theorem nameDeclared_not_unknown {E : List String} {n : String}
    (h : nameDeclaredOrDefault E n = true) : nameInUnknownNamespace E n = false := by
  rcases hp : elementNameParseChars n.data with e | ⟨p, l⟩
  · simp only [nameInUnknownNamespace, hp]
  · simp only [nameDeclaredOrDefault, hp] at h
    simp only [nameInUnknownNamespace, hp]
    rw [Bool.or_eq_true] at h
    rcases h with h | h <;> rw [h] <;> simp

theorem typedNameOk_of_wfChildName {E : List String} {n : String} {t : NodeTree}
    (h : wfChildName E n t = true) : typedNameOk E n t = true := by
  cases t <;> first | rfl | exact h

theorem typedNameOk_const (E : List String) (n : String) (t : NodeTree)
    (hn : nameDeclaredOrDefault E n = true) : typedNameOk E n t = true := by
  cases t <;> first | rfl | exact hn

theorem wfChildName_declared {E : List String} {n : String} {t : NodeTree}
    (h : wfChildName E n t = true) :
    (∀ x, t ≠ .opaqueNode x) → nameDeclaredOrDefault E n = true := by
  intro hne
  cases t <;> first | exact h | exact absurd rfl (hne _)

theorem name_of_serializeNode {E : List String} {n : String} {t : NodeTree}
    (h : wfChildName E n t = true) : nameOfXml (serializeNode n t) = n := by
  cases t with
  | integerNode v mn mx => rfl
  | scaledIntegerNode v mn mx sc off => rfl
  | floatNode v sp mn mx => rfl
  | stringNode t0 => rfl
  | blobNode len off => rfl
  | structureNode ch => rfl
  | vectorNode hetero ch => rfl
  | compressedVectorNode proto codecs rc off => rfl
  | opaqueNode x =>
      cases x with
      | elem nx ax cx =>
          simp only [wfChildName, nameOfXml, beq_iff_eq] at h
          rw [serializeNode.eq_9]
          simp only [nameOfXml]
          exact h.symm

set_option maxHeartbeats 1000000 in
mutual
theorem parse_serializeNode : ∀ (E : List String) (n : String) (t : NodeTree),
    typedNameOk E n t = true → wfNode E t = true →
    parseNode E (serializeNode n t) = some t
  | E, n, .integerNode v mn mx, hn, _ => by
      have hn2 : nameDeclaredOrDefault E n = true := hn
      have hg := nameDeclared_not_unknown hn2
      rw [serializeNode.eq_1, parseNode.eq_1]
      simp only [hg]
      rfl
  | E, n, .scaledIntegerNode v mn mx sc off, hn, _ => by
      have hn2 : nameDeclaredOrDefault E n = true := hn
      have hg := nameDeclared_not_unknown hn2
      rw [serializeNode.eq_2, parseNode.eq_1]
      simp only [hg]
      rfl
  | E, n, .floatNode v sp mn mx, hn, _ => by
      have hn2 : nameDeclaredOrDefault E n = true := hn
      have hg := nameDeclared_not_unknown hn2
      cases sp <;>
        · rw [serializeNode.eq_3, parseNode.eq_1]
          simp only [hg]
          rfl
  | E, n, .stringNode t0, hn, _ => by
      have hn2 : nameDeclaredOrDefault E n = true := hn
      have hg := nameDeclared_not_unknown hn2
      rw [serializeNode.eq_4, parseNode.eq_1]
      simp only [hg]
      rfl
  | E, n, .blobNode len off, hn, _ => by
      have hn2 : nameDeclaredOrDefault E n = true := hn
      have hg := nameDeclared_not_unknown hn2
      rw [serializeNode.eq_5, parseNode.eq_1]
      simp only [hg]
      rfl
  | E, n, .structureNode ch, hn, ht => by
      have hn2 : nameDeclaredOrDefault E n = true := hn
      have hg := nameDeclared_not_unknown hn2
      have ht2 : wfNamedList E ch = true := ht
      cases ch with
      | nil =>
          rw [serializeNode.eq_6, serializeNamedList.eq_1, parseNode.eq_1]
          simp only [hg]
          rfl
      | cons n0 t0 rest =>
          have ih := parse_serializeNamedList E (.cons n0 t0 rest) ht2
          rw [serializeNamedList.eq_2, parseNamedList.eq_2] at ih
          rw [serializeNode.eq_6, serializeNamedList.eq_2, parseNode.eq_2]
          simp only [hg, ih]
          rfl
  | E, n, .vectorNode hetero ch, hn, ht => by
      have hn2 : nameDeclaredOrDefault E n = true := hn
      have hg := nameDeclared_not_unknown hn2
      have ht2 : wfNodeList E ch = true := ht
      cases ch with
      | nil =>
          cases hetero <;>
            · rw [serializeNode.eq_7, serializeNodeList.eq_1, parseNode.eq_1]
              simp only [hg]
              rfl
      | cons t0 rest =>
          have ih := parse_serializeNodeList E (.cons t0 rest) ht2
          rw [serializeNodeList.eq_2, parseNodeList.eq_2] at ih
          cases hetero <;>
            · rw [serializeNode.eq_7, serializeNodeList.eq_2, parseNode.eq_2]
              simp only [hg, ih]
              rfl
  | E, n, .compressedVectorNode proto codecs rc off, hn, ht => by
      have hn2 : nameDeclaredOrDefault E n = true := hn
      have hg := nameDeclared_not_unknown hn2
      have ht2 : (wfNode E proto && wfNodeList E codecs) = true := ht
      rw [Bool.and_eq_true] at ht2
      have ihp := parse_serializeNode E "prototype" proto
        (typedNameOk_const E "prototype" proto rfl) ht2.1
      have ihc := parse_serializeNodeList E codecs ht2.2
      rw [serializeNode.eq_8, parseNode.eq_2]
      simp only [hg, ihp, ihc]
      rfl
  | E, n, .opaqueNode (.elem nx ax cx), _, ht => by
      have hg : nameInUnknownNamespace E nx = true := ht
      cases cx with
      | nil =>
          rw [serializeNode.eq_9, parseNode.eq_1]
          simp only [hg]
          rfl
      | cons y ys =>
          rw [serializeNode.eq_9, parseNode.eq_2]
          simp only [hg]
          rfl
termination_by structural E n t hn ht => t
theorem parse_serializeNamedList : ∀ (E : List String) (l : NamedList),
    wfNamedList E l = true → parseNamedList E (serializeNamedList l) = some l
  | _, .nil, _ => rfl
  | E, .cons n t rest, hl => by
      have hl2 : (wfChildName E n t && wfNode E t && wfNamedList E rest) = true := hl
      rw [Bool.and_eq_true, Bool.and_eq_true] at hl2
      obtain ⟨⟨h1, h2⟩, h3⟩ := hl2
      have ihn := parse_serializeNode E n t (typedNameOk_of_wfChildName h1) h2
      have ihr := parse_serializeNamedList E rest h3
      have hname := name_of_serializeNode h1
      rw [serializeNamedList.eq_2, parseNamedList.eq_2]
      rw [ihn, ihr, hname]
      rfl
termination_by structural E l hl => l
theorem parse_serializeNodeList : ∀ (E : List String) (l : NodeList),
    wfNodeList E l = true → parseNodeList E (serializeNodeList l) = some l
  | _, .nil, _ => rfl
  | E, .cons t rest, hl => by
      have hl2 : (wfNode E t && wfNodeList E rest) = true := hl
      rw [Bool.and_eq_true] at hl2
      have iht := parse_serializeNode E "vectorChild" t
        (typedNameOk_const E "vectorChild" t rfl) hl2.1
      have ihr := parse_serializeNodeList E rest hl2.2
      rw [serializeNodeList.eq_2, parseNodeList.eq_2]
      rw [iht, ihr]
      rfl
termination_by structural E l hl => l
end

theorem parseDocument_serializeDocument (R : Extensions) (t : NodeTree)
    (h : wfNode (declaredShorthands R) t = true) :
    parseDocument (serializeDocument R t) = some (R, t) := by
  simp only [parseDocument, serializeDocument]
  have hroot : parseNode (List.map Prod.fst R.pairs) (serializeNode "e57Root" t) = some t :=
    parse_serializeNode (declaredShorthands R) "e57Root" t
      (typedNameOk_const (declaredShorthands R) "e57Root" t rfl) h
  rw [hroot]

/-- Claim C7: a tree built in a write-mode session (including opaque subtrees
in unknown namespaces), closed and reopened in read mode, parses back to a
structurally equal tree together with its extension registry — XML parsing
inverts XML serialization over the whole tree. -/
theorem claimC7 (s : Session) (h1 : s.state = .openWrite) (h2 : s.writers = 0)
    (h3 : s.readers = 0) (h4 : wfNode (declaredShorthands s.exts) s.tree = true) :
    ∃ s2 : Session,
      closeSession s true
        = ({ s with state := .closed, disk := .sealed (serializeDocument s.exts s.tree) }, none) ∧
      openReadSession (closeSession s true).1.disk = .ok s2 ∧
      s2.tree = s.tree ∧ s2.exts = s.exts := by
  have hclose : closeSession s true
      = ({ s with state := .closed, disk := .sealed (serializeDocument s.exts s.tree) }, none) := by
    simp only [closeSession, h1, h2, h3]
    simp
  refine ⟨⟨.openRead, 0, 0, s.tree, s.exts, .sealed (serializeDocument s.exts s.tree)⟩,
    hclose, ?_, rfl, rfl⟩
  rw [hclose]
  show openReadSession (.sealed (serializeDocument s.exts s.tree)) = _
  simp only [openReadSession]
  rw [parseDocument_serializeDocument s.exts s.tree h4]

/-- Witness for C7: a concrete write session whose tree holds an integer leaf,
a leaf in the declared extension namespace, and an opaque element in an
undeclared namespace; after close and reopen the tree is recovered. -/
theorem claimC7_witness :
    ∃ s2 : Session,
      openReadSession (closeSession
        ⟨.openWrite, 0, 0,
         .structureNode (.cons "value" (.integerNode 7 0 1000)
           (.cons "demo:extra" (.stringNode "hi")
             (.cons "zz:op" (.opaqueNode (.elem "zz:op" [("foo", .strV "bar")] .nil)) .nil))),
         ⟨[("demo", "http://example.com/D")]⟩, .placeholder⟩ true).1.disk = .ok s2 ∧
      s2.tree = .structureNode (.cons "value" (.integerNode 7 0 1000)
        (.cons "demo:extra" (.stringNode "hi")
          (.cons "zz:op" (.opaqueNode (.elem "zz:op" [("foo", .strV "bar")] .nil)) .nil))) := by
  obtain ⟨s2, _, hb, hc, _⟩ := claimC7
    ⟨.openWrite, 0, 0,
     .structureNode (.cons "value" (.integerNode 7 0 1000)
       (.cons "demo:extra" (.stringNode "hi")
         (.cons "zz:op" (.opaqueNode (.elem "zz:op" [("foo", .strV "bar")] .nil)) .nil))),
     ⟨[("demo", "http://example.com/D")]⟩, .placeholder⟩ rfl rfl rfl (by decide)
  exact ⟨s2, hb, hc⟩

/-! ### Claims C1, C2, C3: close / cancel / drop -/

/-- Counterexample for C1 as stated: close on a session in the OpenRead state
is NOT a no-op — the session moves to the Closed state (ImageFile.cpp
documents "@post ImageFile is in closed state", and a session becomes closed
exactly once via close or cancel). -/
theorem claimC1_counterexample :
    (closeSession ⟨.openRead, 0, 0, .structureNode .nil, emptyExtensions,
        .sealed ⟨[], serializeNode "e57Root" (.structureNode .nil)⟩⟩ true).1
      ≠ ⟨.openRead, 0, 0, .structureNode .nil, emptyExtensions,
        .sealed ⟨[], serializeNode "e57Root" (.structureNode .nil)⟩⟩ ∧
    (closeSession ⟨.openRead, 0, 0, .structureNode .nil, emptyExtensions,
        .sealed ⟨[], serializeNode "e57Root" (.structureNode .nil)⟩⟩ true).1.state
      = .closed := by
  constructor
  · decide
  · rfl

/-- Claim C1 (amended): close from Closed is a no-op; from OpenRead it moves
the session to Closed without touching the file and without error; from
OpenWrite with zero live writers and readers and a successful I/O pipeline it
serializes the tree, seals the file, and the file on disk is a complete,
self-consistent E57 file; any failing close leaves the session Closed. -/
theorem claimC1 (s : Session) (io : Bool) :
    (s.state = .closed → closeSession s io = (s, none)) ∧
    (s.state = .openRead → closeSession s io = ({ s with state := .closed }, none)) ∧
    (s.state = .openWrite → s.writers = 0 → s.readers = 0 → io = true →
      wfNode (declaredShorthands s.exts) s.tree = true →
      closeSession s io
        = ({ s with state := .closed, disk := .sealed (serializeDocument s.exts s.tree) }, none) ∧
      selfConsistentDisk (closeSession s io).1.disk) ∧
    (∀ s2 e, closeSession s io = (s2, some e) → s2.state = .closed) := by
  refine ⟨?_, ?_, ?_, ?_⟩
  · intro h
    simp [closeSession, h]
  · intro h
    simp [closeSession, h]
  · intro h1 h2 h3 h4 h5
    subst h4
    have hclose : closeSession s true
        = ({ s with state := .closed, disk := .sealed (serializeDocument s.exts s.tree) }, none) := by
      simp only [closeSession, h1, h2, h3]
      simp
    refine ⟨hclose, ?_⟩
    rw [hclose]
    exact ⟨(s.exts, s.tree), parseDocument_serializeDocument s.exts s.tree h5⟩
  · intro s2 e h
    rcases hst : s.state with _ | _ | _
    · -- openWrite
      simp only [closeSession, hst] at h
      split at h
      · rw [Prod.mk.injEq] at h
        rw [← h.1]
      · split at h
        · rw [Prod.mk.injEq] at h
          cases h.2
        · rw [Prod.mk.injEq] at h
          rw [← h.1]
    · -- openRead
      simp only [closeSession, hst] at h
      rw [Prod.mk.injEq] at h
      cases h.2
    · -- closed
      simp only [closeSession, hst] at h
      rw [Prod.mk.injEq] at h
      cases h.2

/-- Witness for C1: a concrete empty write session closed successfully: the
session seals the serialized document and the result is self-consistent. -/
theorem claimC1_witness :
    closeSession ⟨.openWrite, 0, 0, .structureNode .nil, emptyExtensions, .placeholder⟩ true
      = (⟨.closed, 0, 0, .structureNode .nil, emptyExtensions,
          .sealed (serializeDocument emptyExtensions (.structureNode .nil))⟩, none) ∧
    selfConsistentDisk (closeSession
      ⟨.openWrite, 0, 0, .structureNode .nil, emptyExtensions, .placeholder⟩ true).1.disk :=
  (claimC1 ⟨.openWrite, 0, 0, .structureNode .nil, emptyExtensions, .placeholder⟩ true).2.2.1
    rfl rfl rfl rfl (by decide)

/-- Claim C2: cancel never raises (it is total, with no error channel): from
OpenWrite it drops unflushed state, closes and unlinks, so afterwards no file
exists at the target path; from OpenRead it is equivalent to close — which
itself reports no error there; from Closed it is a no-op. -/
theorem claimC2 (s : Session) :
    (s.state = .openWrite →
      cancelSession s = { s with state := .closed, disk := .absent } ∧
      (cancelSession s).disk = .absent ∧ (cancelSession s).state = .closed) ∧
    (s.state = .openRead →
      cancelSession s = (closeSession s true).1 ∧ (closeSession s true).2 = none) ∧
    (s.state = .closed → cancelSession s = s) := by
  refine ⟨?_, ?_, ?_⟩ <;> intro h <;> simp [cancelSession, closeSession, h]

/-- Witness for C2: cancelling a concrete write session leaves no file. -/
theorem claimC2_witness :
    (cancelSession ⟨.openWrite, 0, 0, .structureNode .nil, emptyExtensions,
        .placeholder⟩).disk = .absent ∧
    (cancelSession ⟨.openWrite, 0, 0, .structureNode .nil, emptyExtensions,
        .placeholder⟩).state = .closed :=
  ((claimC2 ⟨.openWrite, 0, 0, .structureNode .nil, emptyExtensions, .placeholder⟩).1 rfl).2

/-- Claim C3: dropping (destroying) a session still in the OpenWrite state
without close behaves exactly as cancel: the partially written file is
deleted, so no partial file survives the teardown, and the session ends
Closed. -/
theorem claimC3 (s : Session) (h : s.state = .openWrite) :
    dropSession s = cancelSession s ∧ (dropSession s).disk = .absent ∧
    (dropSession s).state = .closed := by
  refine ⟨?_, ?_, ?_⟩ <;> simp [dropSession, cancelSession, h]

/-- Witness for C3: dropping a concrete open write session deletes the file. -/
theorem claimC3_witness :
    (dropSession ⟨.openWrite, 0, 0, .structureNode .nil, emptyExtensions,
        .placeholder⟩).disk = .absent :=
  (claimC3 ⟨.openWrite, 0, 0, .structureNode .nil, emptyExtensions, .placeholder⟩ rfl).2.1

/-! ### Claim C4: writer/reader exclusion on reachable sessions -/

theorem extensionsAddOp_fields {s : SessionView} {pfx uri : String} {s2 : SessionView}
    (h : extensionsAddOp s pfx uri = .ok s2) :
    s2.isOpen = s.isOpen ∧ s2.rootIsRoot = s.rootIsRoot ∧ s2.fileName = s.fileName ∧
    s2.writerCount = s.writerCount ∧ s2.readerCount = s.readerCount ∧
    s2.isWritable = s.isWritable := by
  simp only [extensionsAddOp] at h
  by_cases h1 : (!s.isOpen) = true
  · rw [if_pos h1] at h
    cases h
  · rw [if_neg h1] at h
    by_cases h2 : (!s.isWritable) = true
    · rw [if_pos h2] at h
      cases h
    · rw [if_neg h2] at h
      rcases hadd : extensionsAdd s.extensions pfx uri with e | R
      · simp only [hadd] at h
        cases h
      · simp only [hadd] at h
        cases h
        exact ⟨rfl, rfl, rfl, rfl, rfl, rfl⟩

/-- Claim C4: every reachable session state has at most one live writer
(w ∈ {0,1}); whenever a writer is live there are zero live readers and the
session is in write mode; a read-mode session has zero writers; and the
reader count is never negative. -/
theorem claimC4 (s : SessionView) (h : ReachableSession s) :
    (s.writerCount = 0 ∨ s.writerCount = 1) ∧
    (s.writerCount = 1 → s.readerCount = 0 ∧ s.isWritable = true) ∧
    (s.isWritable = false → s.writerCount = 0) ∧
    0 ≤ s.readerCount := by
  induction h with
  | initWrite name hname =>
      exact ⟨Or.inl rfl, fun hh => absurd hh (show ¬(0 : Int) = 1 by decide),
        fun _ => rfl, le_refl 0⟩
  | initRead name R hname hreg =>
      exact ⟨Or.inl rfl, fun hh => absurd hh (show ¬(0 : Int) = 1 by decide),
        fun _ => rfl, le_refl 0⟩
  | @step s0 s1 hr hstep ih =>
      obtain ⟨ih1, ih2, ih3, ih4⟩ := ih
      cases hstep with
      | writerNew h1 h2 h3 h4 =>
          refine ⟨Or.inr rfl, fun _ => ⟨h4, h2⟩, fun hw => ?_, ?_⟩
          · have hw2 : s0.isWritable = false := hw
            rw [h2] at hw2
            cases hw2
          · exact ih4
      | writerClose h1 =>
          exact ⟨Or.inl rfl, fun hh => absurd hh (show ¬(0 : Int) = 1 by decide),
            fun _ => rfl, ih4⟩
      | readerNew h1 h2 =>
          refine ⟨Or.inl h2, fun hw => ?_, fun _ => h2, ?_⟩
          · have hw2 : s0.writerCount = 1 := hw
            rw [h2] at hw2
            cases hw2
          · show (0 : Int) ≤ s0.readerCount + 1
            omega
      | readerClose h1 =>
          refine ⟨ih1, fun hw => ?_, ih3, ?_⟩
          · exact absurd ((ih2 hw).1 ▸ h1) (show ¬(0 : Int) < 0 by decide)
          · show (0 : Int) ≤ s0.readerCount - 1
            omega
      | extAdd pfx uri hadd =>
          obtain ⟨e1, e2, e3, e4, e5, e6⟩ := extensionsAddOp_fields hadd
          rw [e4, e5, e6]
          exact ⟨ih1, ih2, ih3, ih4⟩
      | sessionClose =>
          exact ⟨ih1, ih2, ih3, ih4⟩

/-- Witness for C4: the initial write session at a concrete path. -/
theorem claimC4_witness :
    ((⟨true, true, "a.e57", 0, 0, true, emptyExtensions⟩ : SessionView).writerCount = 0 ∨
     (⟨true, true, "a.e57", 0, 0, true, emptyExtensions⟩ : SessionView).writerCount = 1) :=
  (claimC4 _ (.initWrite "a.e57" (by decide))).1

/-! ### Claim C8: closed-state behavior of the public surface -/

/-- Counterexample for C8 as stated: checkInvariant invoked on a closed
session does NOT raise ImageFileNotOpen — the source (ImageFile.cpp lines
577-582) returns immediately when the ImageFile is not open. -/
theorem claimC8_counterexample :
    checkInvariant ⟨false, true, "f.e57", 0, 0, true, emptyExtensions⟩ true = .ok () ∧
    ∀ e, checkInvariant ⟨false, true, "f.e57", 0, 0, true, emptyExtensions⟩ true
      ≠ .error e := by
  constructor
  · rfl
  · intro e h
    rw [show checkInvariant ⟨false, true, "f.e57", 0, 0, true, emptyExtensions⟩ true
      = .ok () from rfl] at h
    cases h

/-- Claim C8 (amended): on a closed session every public operation other than
close, cancel and the non-throwing accessors raises ImageFileNotOpen — in
particular root, writerCount, readerCount and all extensions operations —
while checkInvariant on a closed session returns without raising (it cannot
test the invariant, since almost every call it makes would throw). -/
theorem claimC8 (s : SessionView) (h : s.isOpen = false) (pfx uri : String)
    (i : Nat) (b : Bool) :
    rootOp s = .error .imageFileNotOpen ∧
    writerCountOp s = .error .imageFileNotOpen ∧
    readerCountOp s = .error .imageFileNotOpen ∧
    extensionsAddOp s pfx uri = .error .imageFileNotOpen ∧
    extensionsLookupPrefixOp s pfx = .error .imageFileNotOpen ∧
    extensionsLookupUriOp s uri = .error .imageFileNotOpen ∧
    extensionsCountOp s = .error .imageFileNotOpen ∧
    extensionsPrefixOp s i = .error .imageFileNotOpen ∧
    extensionsUriOp s i = .error .imageFileNotOpen ∧
    checkInvariant s b = .ok () := by
  refine ⟨?_, ?_, ?_, ?_, ?_, ?_, ?_, ?_, ?_, ?_⟩ <;>
    simp [rootOp, writerCountOp, readerCountOp, extensionsAddOp, extensionsLookupPrefixOp,
      extensionsLookupUriOp, extensionsCountOp, extensionsPrefixOp, extensionsUriOp,
      checkInvariant, h]

/-- Witness for C8: the closed session view, with sample arguments for the
guarded operations. -/
theorem claimC8_witness :
    rootOp ⟨false, true, "f.e57", 0, 0, true, emptyExtensions⟩
      = .error .imageFileNotOpen ∧
    extensionsCountOp ⟨false, true, "f.e57", 0, 0, true, emptyExtensions⟩
      = .error .imageFileNotOpen :=
  ⟨(claimC8 ⟨false, true, "f.e57", 0, 0, true, emptyExtensions⟩ rfl "x" "u" 0 true).1,
   (claimC8 ⟨false, true, "f.e57", 0, 0, true, emptyExtensions⟩ rfl "x" "u" 0 true).2.2.2.2.2.2.1⟩

end E57
